import Mathlib

/-!
Verification of `src/GeosCore/rdtsc.c`.

The source is a single function:

    inline uint64_t rdtsc()
    {
        uint32_t lo, hi;
        __asm__ __volatile__(
            "rdtsc"
            : "=a"(lo), "=d"(hi)
        );
        return ((uint64_t)hi << 32) | lo;
    }

We embed it shallowly.  The RDTSC hardware instruction is modelled as an
oracle: every logical core carries a free-running cycle counter whose value
at every instant is given by the machine state; the instruction captures the
counter and delivers it split across EDX (high 32 bits) and EAX (low
32 bits).  The C wrapper recombines the two halves; that recombination,
`((uint64_t)hi << 32) | lo`, is the only computation the source performs and
is embedded bit-for-bit as `rdtsc_combine` below, with the `uint32_t` range
of the two register values made explicit by reduction mod 2^32.
-/

/-- A value delivered in a 32-bit register, as the C type `uint32_t`:
a natural number below 2^32. -/
def uint32Lt (x : Nat) : Prop := x < 2 ^ 32

instance (x : Nat) : Decidable (uint32Lt x) := by
  unfold uint32Lt; infer_instance

/-- The hardware side of the RDTSC instruction: the 64-bit counter value `c`
is delivered split across two 32-bit registers, EDX holding the high half and
EAX the low half.  Returns `(hi, lo)` for `(EDX, EAX)`. -/
def hwDeliver (c : Nat) : Nat × Nat := (c / 2 ^ 32 % 2 ^ 32, c % 2 ^ 32)

/-- Embedding of the only computation in `rdtsc.c`, line 10:
`return ((uint64_t)hi << 32) | lo;`.  Both operands are `uint32_t`, which
the embedding makes explicit by reducing each mod 2^32; the cast of `hi` to
`uint64_t` before the shift means the shift loses no bits, and the `|` is
bitwise or on the 64-bit values. -/
def rdtsc_combine (hi lo : Nat) : Nat := ((hi % 2 ^ 32) <<< 32) ||| (lo % 2 ^ 32)

/-- Machine state visible to the wrapper: each logical core's free-running
timestamp counter (indexed by core id and by instant), and program memory,
which the wrapper never touches.  The counters belong to the hardware; the
wrapper only reads them through `hwDeliver`. -/
structure Machine where
  counters : Nat → Nat → Nat
  mem : Nat → Nat

/-- The value computed by one call of `rdtsc()` executing on machine `m`,
logical core `core`, at instant `t`: the instruction captures the counter,
delivers the EDX/EAX split, and the wrapper recombines the halves. -/
def rdtsc (m : Machine) (core t : Nat) : Nat :=
  rdtsc_combine (hwDeliver (m.counters core t)).1 (hwDeliver (m.counters core t)).2

/-- One call of `rdtsc()` as a state transformer: it produces its return
value and the machine it leaves behind.  The asm block names only the two
output registers (no memory operand, no clobber beyond them) and the wrapper
writes only its locals and its return slot, so the machine passes through
unchanged. -/
def rdtscExec (m : Machine) (core t : Nat) : Nat × Machine :=
  (rdtsc m core t, m)

/-- The two steps of the function body: the asm statement (lines 6-9) and
the return statement (line 10). -/
inductive RdtscInstr
  | readCounter
  | combineHalves

/-- Register/local state while the body runs: `eax` and `edx` are the two
instruction outputs (the C locals `lo` and `hi`), `ret` the return slot. -/
structure Regs where
  eax : Nat
  edx : Nat
  ret : Nat

/-- The body of `rdtsc()` as a straight-line instruction list: read the
counter, then combine the halves.  No loop, no branch, no call. -/
def rdtscBody : List RdtscInstr := [.readCounter, .combineHalves]

/-- Effect of one body step on the register state. -/
def stepInstr (m : Machine) (core t : Nat) (r : Regs) : RdtscInstr → Regs
  | .readCounter =>
      { r with eax := (hwDeliver (m.counters core t)).2,
               edx := (hwDeliver (m.counters core t)).1 }
  | .combineHalves => { r with ret := rdtsc_combine r.edx r.eax }

/-- Run a straight-line instruction list to completion.  Structural
recursion on the list: running any finite body terminates. -/
def runBody (m : Machine) (core t : Nat) (r : Regs) : List RdtscInstr → Regs
  | [] => r
  | i :: rest => runBody m core t (stepInstr m core t r i) rest

/-- A trace of calls: each event is `(core, instant)` for one call of
`rdtsc()`, in the global order in which the interleaved calls execute.
Execution threads the machine through the calls and collects every return
value. -/
def execTrace : Machine → List (Nat × Nat) → List Nat × Machine
  | m, [] => ([], m)
  | m, e :: rest =>
      let vm := rdtscExec m e.1 e.2
      let tl := execTrace vm.2 rest
      (vm.1 :: tl.1, tl.2)

/-! ### Helper lemmas -/

/-- Bitwise or of a value shifted left by 32 with a value below 2^32 is
plain addition: the operands occupy disjoint bit ranges. -/
theorem shiftLeft32_lor_eq_add (a b : Nat) (h : b < 2 ^ 32) :
    (a <<< 32) ||| b = a * 2 ^ 32 + b := by
  apply Nat.eq_of_testBit_eq
  intro i
  rw [Nat.testBit_lor, Nat.testBit_shiftLeft, Nat.mul_comm,
    Nat.testBit_mul_pow_two_add a h i]
  by_cases hi : i < 32
  · simp [hi, Nat.not_le_of_lt hi]
  · have hb : b.testBit i = false :=
      Nat.testBit_lt_two_pow
        (lt_of_lt_of_le h (Nat.pow_le_pow_right (by norm_num) (Nat.le_of_not_lt hi)))
    simp [hi, Nat.le_of_not_lt hi, hb]

/-- For register values in `uint32_t` range the recombination is exactly
`hi * 2^32 + lo`. -/
theorem rdtsc_combine_eq_add (hi lo : Nat) (hH : hi < 2 ^ 32) (hL : lo < 2 ^ 32) :
    rdtsc_combine hi lo = hi * 2 ^ 32 + lo := by
  unfold rdtsc_combine
  rw [Nat.mod_eq_of_lt hH, Nat.mod_eq_of_lt hL]
  exact shiftLeft32_lor_eq_add hi lo hL

/-- The recombination always fits in 64 bits, whatever the raw inputs. -/
theorem rdtsc_combine_lt (hi lo : Nat) : rdtsc_combine hi lo < 2 ^ 64 := by
  have h1 : hi % 2 ^ 32 < 2 ^ 32 := Nat.mod_lt _ (by norm_num)
  have h2 : lo % 2 ^ 32 < 2 ^ 32 := Nat.mod_lt _ (by norm_num)
  have := rdtsc_combine_eq_add (hi % 2 ^ 32) (lo % 2 ^ 32)
    (Nat.mod_lt _ (by norm_num)) (Nat.mod_lt _ (by norm_num))
  unfold rdtsc_combine at *
  rw [Nat.mod_mod_of_dvd, Nat.mod_mod_of_dvd] at this
  · rw [this]; omega
  · exact dvd_refl _
  · exact dvd_refl _

/-- Splitting a 64-bit counter through the instruction and recombining the
halves gives the counter back. -/
theorem rdtsc_eq_counter (m : Machine) (core t : Nat)
    (h : m.counters core t < 2 ^ 64) :
    rdtsc m core t = m.counters core t := by
  unfold rdtsc hwDeliver
  have hdiv : m.counters core t / 2 ^ 32 < 2 ^ 32 := by
    apply Nat.div_lt_of_lt_mul
    calc m.counters core t < 2 ^ 64 := h
    _ = 2 ^ 32 * 2 ^ 32 := by norm_num
  rw [rdtsc_combine_eq_add _ _ (Nat.mod_lt _ (by norm_num)) (Nat.mod_lt _ (by norm_num))]
  rw [Nat.mod_eq_of_lt hdiv]
  have := Nat.div_add_mod (m.counters core t) (2 ^ 32)
  omega

/-- Executing a trace of calls leaves the machine exactly as it started. -/
theorem execTrace_machine (m : Machine) (evts : List (Nat × Nat)) :
    (execTrace m evts).2 = m := by
  induction evts with
  | nil => rfl
  | cons e rest ih => simpa [execTrace, rdtscExec] using ih

/-- The values a trace returns are the pure per-call values: each call's
result is a function of its own core and instant alone, untouched by the
calls interleaved around it. -/
theorem execTrace_results (m : Machine) (evts : List (Nat × Nat)) :
    (execTrace m evts).1 = evts.map (fun e => rdtsc m e.1 e.2) := by
  induction evts with
  | nil => rfl
  | cons e rest ih => simpa [execTrace, rdtscExec] using ih

/-! ### Claims -/

/-- C1: for every `uint32_t` pair `(H, L)` delivered as high and low half,
the wrapper returns exactly the 64-bit value `(H <<< 32) ||| L`, which
equals `H * 2^32 + L` — high half in the most significant 32 bits, low half
in the least significant 32 bits — and the four boundary cases evaluate as
the spec lists them. -/
theorem readCycleCount_concatenation (H L : Nat)
    (hH : H < 2 ^ 32) (hL : L < 2 ^ 32) :
    rdtsc_combine H L = (H <<< 32) ||| L ∧
    rdtsc_combine H L = H * 2 ^ 32 + L ∧
    rdtsc_combine 0 0 = 0 ∧
    rdtsc_combine 0 0xFFFFFFFF = 0xFFFFFFFF ∧
    rdtsc_combine 1 0 = 0x100000000 ∧
    rdtsc_combine 0xFFFFFFFF 0xFFFFFFFF = 0xFFFFFFFFFFFFFFFF := by
  refine ⟨?_, rdtsc_combine_eq_add H L hH hL, by decide, by decide, by decide, by decide⟩
  unfold rdtsc_combine
  rw [Nat.mod_eq_of_lt hH, Nat.mod_eq_of_lt hL]

/-- Witness for C1 at the concrete pair `H = 1`, `L = 0`. -/
theorem readCycleCount_concatenation_witness :
    (1 : Nat) < 2 ^ 32 ∧ (0 : Nat) < 2 ^ 32 ∧
    (rdtsc_combine 1 0 = ((1 : Nat) <<< 32) ||| 0 ∧
     rdtsc_combine 1 0 = 1 * 2 ^ 32 + 0 ∧
     rdtsc_combine 0 0 = 0 ∧
     rdtsc_combine 0 0xFFFFFFFF = 0xFFFFFFFF ∧
     rdtsc_combine 1 0 = 0x100000000 ∧
     rdtsc_combine 0xFFFFFFFF 0xFFFFFFFF = 0xFFFFFFFFFFFFFFFF) :=
  ⟨by decide, by decide, readCycleCount_concatenation 1 0 (by decide) (by decide)⟩

/-- C2: the call takes no inputs — its value is determined by the hardware
state alone, through the single register pair the instruction delivers — and
the result is always one 64-bit unsigned integer: a natural number below
2^64, never any other shape of value. -/
theorem readCycleCount_uint64_result (m : Machine) (core t : Nat) :
    rdtsc m core t < 2 ^ 64 ∧
    rdtsc m core t =
      rdtsc_combine (hwDeliver (m.counters core t)).1 (hwDeliver (m.counters core t)).2 :=
  ⟨rdtsc_combine_lt _ _, rfl⟩

/-- C3: on a machine exposing the instruction, a call cannot fail: every
execution produces an ordinary CycleCount value (below 2^64) together with
an unchanged machine — there is no error value and no failure path in the
embedded function, which is total. -/
theorem readCycleCount_no_failure (m : Machine) (core t : Nat) :
    ∃ v : Nat, rdtscExec m core t = (v, m) ∧ v < 2 ^ 64 :=
  ⟨rdtsc m core t, rfl, rdtsc_combine_lt _ _⟩

/-- C4: no side effects.  A single call returns the machine unchanged, any
sequence of repeated calls returns the machine unchanged (counters and
memory alike), and the returned value reads only the processor-local
counter state: replacing the whole program memory does not change it. -/
theorem readCycleCount_no_side_effects (m : Machine) (core t : Nat)
    (calls : List (Nat × Nat)) (f : Nat → Nat) :
    (rdtscExec m core t).2 = m ∧
    (execTrace m calls).2 = m ∧
    rdtsc ⟨m.counters, f⟩ core t = rdtsc m core t :=
  ⟨rfl, execTrace_machine m calls, rfl⟩

/-- C5: two consecutive calls on the same logical core, with the hardware
counter non-decreasing between them and no 64-bit wraparound (both counter
values below 2^64), return non-decreasing values. -/
theorem readCycleCount_monotone (m : Machine) (core t₁ t₂ : Nat)
    (hadv : m.counters core t₁ ≤ m.counters core t₂)
    (hb₁ : m.counters core t₁ < 2 ^ 64)
    (hb₂ : m.counters core t₂ < 2 ^ 64) :
    rdtsc m core t₁ ≤ rdtsc m core t₂ := by
  rw [rdtsc_eq_counter m core t₁ hb₁, rdtsc_eq_counter m core t₂ hb₂]
  exact hadv

/-- Witness for C5 on a concrete machine whose core-0 counter advances from
0 to 1 between the two instants. -/
theorem readCycleCount_monotone_witness :
    (Machine.mk (fun _ t => min t 3) (fun _ => 0)).counters 0 0 ≤
      (Machine.mk (fun _ t => min t 3) (fun _ => 0)).counters 0 1 ∧
    (Machine.mk (fun _ t => min t 3) (fun _ => 0)).counters 0 0 < 2 ^ 64 ∧
    (Machine.mk (fun _ t => min t 3) (fun _ => 0)).counters 0 1 < 2 ^ 64 ∧
    rdtsc (Machine.mk (fun _ t => min t 3) (fun _ => 0)) 0 0 ≤
      rdtsc (Machine.mk (fun _ t => min t 3) (fun _ => 0)) 0 1 :=
  ⟨by decide, by decide, by decide,
    readCycleCount_monotone (Machine.mk (fun _ t => min t 3) (fun _ => 0)) 0 0 1
      (by decide) (by decide) (by decide)⟩

/-- C6: the call always terminates.  Its body is the fixed two-step
straight-line program `rdtscBody` (the asm read, then the recombining
return): running it from any register state reaches a final state, whose
return slot holds the call's value, after exactly two steps — there is no
loop, no recursion and no blocking operation. -/
theorem readCycleCount_terminates (m : Machine) (core t : Nat) (r : Regs) :
    ∃ rfin : Regs, runBody m core t r rdtscBody = rfin ∧
      rfin.ret = rdtsc m core t ∧ rdtscBody.length = 2 :=
  ⟨runBody m core t r rdtscBody, rfl, rfl, rfl⟩

/-- C7: the function is not a constant stub.  If the hardware counter
strictly advances between the instants of two calls on one core (and the
later value has not wrapped past 2^64), the two returned values differ. -/
theorem readCycleCount_not_constant (m : Machine) (core t₁ t₂ : Nat)
    (hadv : m.counters core t₁ < m.counters core t₂)
    (hb₂ : m.counters core t₂ < 2 ^ 64) :
    rdtsc m core t₁ ≠ rdtsc m core t₂ := by
  rw [rdtsc_eq_counter m core t₁ (lt_trans hadv hb₂), rdtsc_eq_counter m core t₂ hb₂]
  omega

/-- Witness for C7 on a concrete machine whose core-0 counter strictly
advances from 0 to 1. -/
theorem readCycleCount_not_constant_witness :
    (Machine.mk (fun _ t => min t 3) (fun _ => 0)).counters 0 0 <
      (Machine.mk (fun _ t => min t 3) (fun _ => 0)).counters 0 1 ∧
    (Machine.mk (fun _ t => min t 3) (fun _ => 0)).counters 0 1 < 2 ^ 64 ∧
    rdtsc (Machine.mk (fun _ t => min t 3) (fun _ => 0)) 0 0 ≠
      rdtsc (Machine.mk (fun _ t => min t 3) (fun _ => 0)) 0 1 :=
  ⟨by decide, by decide,
    readCycleCount_not_constant (Machine.mk (fun _ t => min t 3) (fun _ => 0)) 0 0 1
      (by decide) (by decide)⟩

/-- Indexing the list of per-call values of a trace: within range, the
`i`-th value is the pure value of the `i`-th event. -/
theorem execTrace_getD (m : Machine) (evts : List (Nat × Nat)) (i : Nat)
    (h : i < evts.length) :
    (execTrace m evts).1.getD i 0 =
      rdtsc m (evts.getD i (0, 0)).1 (evts.getD i (0, 0)).2 := by
  rw [execTrace_results]
  induction evts generalizing i with
  | nil => simp at h
  | cons e rest ih =>
    cases i with
    | zero => simp
    | succ n =>
      simp only [List.map_cons, List.getD_cons_succ]
      exact ih n (by simpa using h)

/-- C8: thread safety of concurrent calls.  For any interleaved trace of
calls from any number of threads on any logical cores — with each core's
counter non-decreasing in time, never wrapping past 2^64, and the trace
listed in global time order — every call completes (one value per event),
the shared machine state is left untouched, each call's value is the pure
function of its own core and instant (no call is affected by the calls
around it, so there is nothing to race on), and the sequence of values of
any one core is monotone. -/
theorem readCycleCount_thread_safe (m : Machine) (evts : List (Nat × Nat))
    (hmono : ∀ c t₁ t₂, t₁ ≤ t₂ → m.counters c t₁ ≤ m.counters c t₂)
    (hbound : ∀ c t, m.counters c t < 2 ^ 64)
    (htime : ∀ i j, i < evts.length → j < evts.length → i ≤ j →
      (evts.getD i (0, 0)).2 ≤ (evts.getD j (0, 0)).2) :
    (execTrace m evts).1.length = evts.length ∧
    (execTrace m evts).2 = m ∧
    (∀ i, i < evts.length →
      (execTrace m evts).1.getD i 0 =
        rdtsc m (evts.getD i (0, 0)).1 (evts.getD i (0, 0)).2) ∧
    (∀ i j, i < evts.length → j < evts.length → i ≤ j →
      (evts.getD i (0, 0)).1 = (evts.getD j (0, 0)).1 →
      (execTrace m evts).1.getD i 0 ≤ (execTrace m evts).1.getD j 0) := by
  refine ⟨by rw [execTrace_results]; simp, execTrace_machine m evts,
    fun i hi => execTrace_getD m evts i hi, ?_⟩
  intro i j hi hj hij hcore
  rw [execTrace_getD m evts i hi, execTrace_getD m evts j hj]
  rw [rdtsc_eq_counter m _ _ (hbound _ _), rdtsc_eq_counter m _ _ (hbound _ _)]
  rw [hcore]
  exact hmono _ _ _ (htime i j hi hj hij)

/-- Witness for C8: two interleaved calls on core 0 of a machine whose
counters are the constant 5. -/
theorem readCycleCount_thread_safe_witness :
    (∀ c t₁ t₂, t₁ ≤ t₂ →
      (Machine.mk (fun _ _ => 5) (fun _ => 0)).counters c t₁ ≤
        (Machine.mk (fun _ _ => 5) (fun _ => 0)).counters c t₂) ∧
    (∀ c t, (Machine.mk (fun _ _ => 5) (fun _ => 0)).counters c t < 2 ^ 64) ∧
    (∀ i j, i < ([((0 : Nat), (0 : Nat)), (0, 1)] : List (Nat × Nat)).length →
      j < ([((0 : Nat), (0 : Nat)), (0, 1)] : List (Nat × Nat)).length → i ≤ j →
      (([((0 : Nat), (0 : Nat)), (0, 1)] : List (Nat × Nat)).getD i (0, 0)).2 ≤
        (([((0 : Nat), (0 : Nat)), (0, 1)] : List (Nat × Nat)).getD j (0, 0)).2) ∧
    ((execTrace (Machine.mk (fun _ _ => 5) (fun _ => 0))
        [((0 : Nat), (0 : Nat)), (0, 1)]).1.length =
      ([((0 : Nat), (0 : Nat)), (0, 1)] : List (Nat × Nat)).length ∧
    (execTrace (Machine.mk (fun _ _ => 5) (fun _ => 0))
        [((0 : Nat), (0 : Nat)), (0, 1)]).2 =
      Machine.mk (fun _ _ => 5) (fun _ => 0) ∧
    (∀ i, i < ([((0 : Nat), (0 : Nat)), (0, 1)] : List (Nat × Nat)).length →
      (execTrace (Machine.mk (fun _ _ => 5) (fun _ => 0))
          [((0 : Nat), (0 : Nat)), (0, 1)]).1.getD i 0 =
        rdtsc (Machine.mk (fun _ _ => 5) (fun _ => 0))
          (([((0 : Nat), (0 : Nat)), (0, 1)] : List (Nat × Nat)).getD i (0, 0)).1
          (([((0 : Nat), (0 : Nat)), (0, 1)] : List (Nat × Nat)).getD i (0, 0)).2) ∧
    (∀ i j, i < ([((0 : Nat), (0 : Nat)), (0, 1)] : List (Nat × Nat)).length →
      j < ([((0 : Nat), (0 : Nat)), (0, 1)] : List (Nat × Nat)).length → i ≤ j →
      (([((0 : Nat), (0 : Nat)), (0, 1)] : List (Nat × Nat)).getD i (0, 0)).1 =
        (([((0 : Nat), (0 : Nat)), (0, 1)] : List (Nat × Nat)).getD j (0, 0)).1 →
      (execTrace (Machine.mk (fun _ _ => 5) (fun _ => 0))
          [((0 : Nat), (0 : Nat)), (0, 1)]).1.getD i 0 ≤
        (execTrace (Machine.mk (fun _ _ => 5) (fun _ => 0))
            [((0 : Nat), (0 : Nat)), (0, 1)]).1.getD j 0)) :=
  ⟨fun _ _ _ _ => Nat.le_refl 5,
    fun _ _ => (show (5 : Nat) < 2 ^ 64 by decide),
    fun i j hi hj hij => by
      simp only [List.length_cons, List.length_nil] at hi hj
      interval_cases i <;> interval_cases j <;> decide,
    readCycleCount_thread_safe (Machine.mk (fun _ _ => 5) (fun _ => 0))
      [((0 : Nat), (0 : Nat)), (0, 1)]
      (fun _ _ _ _ => Nat.le_refl 5)
      (fun _ _ => (show (5 : Nat) < 2 ^ 64 by decide))
      (fun i j hi hj hij => by
        simp only [List.length_cons, List.length_nil] at hi hj
        interval_cases i <;> interval_cases j <;> decide)⟩

/-- C9: the concatenation is a lossless round-trip.  For every `uint32_t`
pair, shifting the result right by 32 recovers the high half and reducing it
mod 2^32 recovers the low half — the zero-extended low half never corrupts
the high 32 bits — and every 64-bit value is hit by some pair, so the
mapping is a bijection between pairs and 64-bit values. -/
theorem rdtsc_combine_roundtrip (hi lo : Nat)
    (hH : hi < 2 ^ 32) (hL : lo < 2 ^ 32) :
    rdtsc_combine hi lo >>> 32 = hi ∧
    rdtsc_combine hi lo % 2 ^ 32 = lo ∧
    (∀ v, v < 2 ^ 64 → ∃ h₂ l₂, h₂ < 2 ^ 32 ∧ l₂ < 2 ^ 32 ∧
      rdtsc_combine h₂ l₂ = v) := by
  have e32 : (2 : Nat) ^ 32 = 4294967296 := by norm_num
  refine ⟨?_, ?_, ?_⟩
  · rw [rdtsc_combine_eq_add hi lo hH hL, Nat.shiftRight_eq_div_pow]
    rw [e32] at *
    omega
  · rw [rdtsc_combine_eq_add hi lo hH hL]
    rw [e32] at *
    omega
  · intro v hv
    have e64 : (2 : Nat) ^ 64 = 18446744073709551616 := by norm_num
    refine ⟨v / 2 ^ 32, v % 2 ^ 32, ?_, Nat.mod_lt _ (by norm_num), ?_⟩
    · rw [e32] at *
      rw [e64] at hv
      omega
    · rw [rdtsc_combine_eq_add _ _ ?_ (Nat.mod_lt _ (by norm_num))]
      · rw [e32] at *
        omega
      · rw [e32] at *
        rw [e64] at hv
        omega

/-- Witness for C9 at the concrete pair `hi = 1`, `lo = 2`. -/
theorem rdtsc_combine_roundtrip_witness :
    (1 : Nat) < 2 ^ 32 ∧ (2 : Nat) < 2 ^ 32 ∧
    (rdtsc_combine 1 2 >>> 32 = 1 ∧
     rdtsc_combine 1 2 % 2 ^ 32 = 2 ∧
     (∀ v, v < 2 ^ 64 → ∃ h₂ l₂, h₂ < 2 ^ 32 ∧ l₂ < 2 ^ 32 ∧
       rdtsc_combine h₂ l₂ = v)) :=
  ⟨by decide, by decide, rdtsc_combine_roundtrip 1 2 (by decide) (by decide)⟩

/-- C10: the returned value is a deterministic function of the register
pair the instruction delivers: two executions — on any machines, cores and
instants — in which the instruction captures the same two 32-bit halves
return the same 64-bit result. -/
theorem readCycleCount_deterministic (m₁ m₂ : Machine) (c₁ t₁ c₂ t₂ : Nat)
    (h : hwDeliver (m₁.counters c₁ t₁) = hwDeliver (m₂.counters c₂ t₂)) :
    rdtsc m₁ c₁ t₁ = rdtsc m₂ c₂ t₂ := by
  unfold rdtsc
  rw [h]

/-- Witness for C10: two machines with different memory but the same
captured counter value give the same result. -/
theorem readCycleCount_deterministic_witness :
    hwDeliver ((Machine.mk (fun _ _ => 5) (fun _ => 0)).counters 0 0) =
      hwDeliver ((Machine.mk (fun _ _ => 5) (fun _ => 7)).counters 1 2) ∧
    rdtsc (Machine.mk (fun _ _ => 5) (fun _ => 0)) 0 0 =
      rdtsc (Machine.mk (fun _ _ => 5) (fun _ => 7)) 1 2 :=
  ⟨rfl, readCycleCount_deterministic
    (Machine.mk (fun _ _ => 5) (fun _ => 0))
    (Machine.mk (fun _ _ => 5) (fun _ => 7)) 0 0 1 2 rfl⟩
